import Mathlib

/-!
Verification of the ExAuto pipeline (src/ExAuto.py): a document is read,
split into word-bounded chunks (`smart_split_text`), each chunk is sent to a
remote text-generation service with bounded retry and exponential backoff
(`extract_use_cases`), the structured outputs are aggregated in order by
`main`, recipients are validated (`read_recipients_from_file`) and the
result is emailed (`send_docx_via_email`).

Strings are modelled as `List Char`.  The remote service and the mail
transport are modelled as oracles/outcomes supplied as parameters, since
they are external collaborators.
-/

namespace ExAuto

/-- Whitespace characters recognised by Python's `str.split()` / `str.strip()`
for ASCII text: space, tab, newline, vertical tab, form feed, carriage
return. -/
def isPySpace (c : Char) : Bool :=
  c = ' ' || c = '\t' || c = '\n' || c = '\x0b' || c = '\x0c' || c = '\r'

/-- Accumulator pass behind `pySplit`: `cur` is the (reversed-not) current run
of non-whitespace characters being collected.  Mirrors the semantics of
Python's `text.split()` (line 43 of ExAuto.py): split on runs of whitespace,
discarding empty words. -/
def pySplitAux : List Char → List Char → List (List Char)
  | [], cur => if cur = [] then [] else [cur]
  | c :: cs, cur =>
    if isPySpace c then
      if cur = [] then pySplitAux cs [] else cur :: pySplitAux cs []
    else
      pySplitAux cs (cur ++ [c])

/-- Python's `text.split()`: the list of maximal runs of non-whitespace
characters of `text`, in order. -/
def pySplit (text : List Char) : List (List Char) :=
  pySplitAux text []

/-- Python's `' '.join(words)` (line 52 of ExAuto.py): words joined by a
single space. -/
def joinWords : List (List Char) → List Char
  | [] => []
  | w :: ws =>
    match ws with
    | [] => w
    | _ :: _ => w ++ ' ' :: joinWords ws

/-- The grouping performed by the loop
`for i in range(0, total_words, max_words_per_chunk)` at lines 51-53 of
ExAuto.py: consecutive groups of `n` elements, the final group possibly
shorter.  For `n = 0` Python's `range` would raise `ValueError`; that
parameter value is outside the modelled domain and mapped to `[]` (which
also matches Python's behaviour for a negative step, where `range` is
empty). -/
def chunkGroupsGo (n : Nat) : Nat → List α → List (List α)
  | _, [] => []
  | 0, _ :: _ => []
  | fuel + 1, w :: rest =>
    if n = 0 then []
    else (w :: rest).take n :: chunkGroupsGo n fuel ((w :: rest).drop n)

/-- Entry point of the grouping loop; the fuel `ws.length` bounds the number
of iterations (each iteration drops at least one element when `n ≠ 0`). -/
def chunkGroups (n : Nat) (ws : List α) : List (List α) :=
  chunkGroupsGo n ws.length ws

/-- The Chunker, `smart_split_text(text, model_max_tokens=3000,
buffer_tokens=500)` (lines 42-55 of ExAuto.py): if the word count is at most
`model_max_tokens - buffer_tokens` the whole text is returned as the single
chunk; otherwise the word sequence is partitioned into groups of that many
words, each group re-joined with single spaces. -/
def smart_split_text (text : List Char) (model_max_tokens buffer_tokens : Int) :
    List (List Char) :=
  let words := pySplit text
  let total_words : Int := words.length
  let max_words_per_chunk : Int := model_max_tokens - buffer_tokens
  if total_words ≤ max_words_per_chunk then
    [text]
  else
    (chunkGroups max_words_per_chunk.toNat words).map joinWords

/-- Outcome of one call to the remote text-generation service
(`client.text_generation`, lines 84-90 of ExAuto.py): either the generated
response, or an exception (network error, service error, timeout — the code
catches every `Exception` alike). -/
inductive AttemptResult (α : Type) : Type
  | success (r : α)
  | failure
deriving DecidableEq, Repr

/-- Observable trace of one `extract_use_cases` invocation: how many service
calls were made, the backoff waits performed by `time.sleep` in order (in
seconds), and the result — `some r` when the function returns response `r`,
`none` when it raises `RuntimeError("Failed to extract use cases after
multiple retries.")`. -/
structure ExtractTrace (α : Type) : Type where
  calls : Nat
  waits : List Nat
  result : Option α
deriving DecidableEq, Repr

/-- The retry loop `while attempt < max_retries` of `extract_use_cases`
(lines 81-99 of ExAuto.py), phrased by recursion on
`remaining = max_retries - attempt` (so `attempt < max_retries` iff
`remaining > 0`).  `oracle k` is the outcome of the service call on attempt
`k` (0-indexed).  On success the response is returned at once; on failure
the loop sleeps `2 ^ attempt` seconds and increments `attempt`. -/
def extractLoop (oracle : Nat → AttemptResult α) (attempt : Nat) :
    Nat → ExtractTrace α
  | 0 => ⟨0, [], none⟩
  | remaining + 1 =>
    match oracle attempt with
    | .success r => ⟨1, [], some r⟩
    | .failure =>
      let rest := extractLoop oracle (attempt + 1) remaining
      ⟨rest.calls + 1, 2 ^ attempt :: rest.waits, rest.result⟩

/-- The Extraction Client `extract_use_cases(text, max_retries=5)`
(lines 58-99 of ExAuto.py).  The chunk text only feeds the prompt and does
not influence control flow, so the trace is a function of the per-attempt
service outcomes and `max_retries` (a Python int, hence `Int`; the loop
body runs while `attempt < max_retries`, i.e. `max_retries.toNat` times at
most). -/
def extract_use_cases (oracle : Nat → AttemptResult α) (max_retries : Int) :
    ExtractTrace α :=
  extractLoop oracle 0 max_retries.toNat

/-- Characters allowed in the local part by the regex of `is_valid_email`
(line 102 of ExAuto.py): `[a-zA-Z0-9._%+-]`. -/
def isLocalChar (c : Char) : Bool :=
  c.isAlphanum || c = '.' || c = '_' || c = '%' || c = '+' || c = '-'

/-- Characters allowed in the domain part by the regex: `[a-zA-Z0-9.-]`. -/
def isDomainChar (c : Char) : Bool :=
  c.isAlphanum || c = '.' || c = '-'

/-- `is_valid_email(email)` (lines 101-103 of ExAuto.py):
`re.match(r'^[a-zA-Z0-9._%+-]+@[a-zA-Z0-9.-]+\.[a-zA-Z]\x7b2,\x7d$', email)`
as a Boolean.  The regex matches exactly when the string decomposes as
`local ++ "@" ++ domain ++ "." ++ tld` with `local` nonempty over the local
alphabet, `domain` nonempty over the domain alphabet and `tld` at least two
ASCII letters; the decomposition is sought by trying every position `i` of
the `@` and every position `j` of the final `.`. -/
def is_valid_email (e : List Char) : Bool :=
  (List.range e.length).any fun i =>
    (List.range e.length).any fun j =>
      decide (1 ≤ i) && decide (i + 2 ≤ j) && decide (j + 3 ≤ e.length) &&
      (e.getD i ' ' == '@') && (e.getD j ' ' == '.') &&
      (e.take i).all isLocalChar &&
      ((e.drop (i + 1)).take (j - i - 1)).all isDomainChar &&
      (e.drop (j + 1)).all Char.isAlpha

/-- Python's `line.strip()` for ASCII text: drop leading and trailing
whitespace. -/
def pyStrip (s : List Char) : List Char :=
  ((s.dropWhile isPySpace).reverse.dropWhile isPySpace).reverse

/-- `read_recipients_from_file` (lines 105-116 of ExAuto.py), modelled on
the file's list of raw lines (the file-unreadable branch, which returns
`[]`, is external I/O and not modelled): strip each line, keep the
non-blank ones as candidates, then keep the candidates accepted by
`is_valid_email`; invalid candidates are only warned about on stdout. -/
def read_recipients_from_file (rawLines : List (List Char)) : List (List Char) :=
  let recipient_emails := (rawLines.map pyStrip).filter (fun l => !l.isEmpty)
  recipient_emails.filter (fun email => is_valid_email email)

/-- The orchestrator's view of one chunk's extraction (line 180 of
ExAuto.py): `extract_use_cases` either returns structured text (`ok`) or
raises `RuntimeError` after exhausting its retries (`exhausted`). -/
inductive ChunkOutcome (β : Type) : Type
  | ok (r : β)
  | exhausted
deriving DecidableEq, Repr

/-- The chunk loop of `main` (lines 177-181 of ExAuto.py):
`for chunk in chunks: all_structured_outputs.append(extract_use_cases(chunk))`.
Returns the accumulated outputs, the number of chunks on which
`extract_use_cases` was invoked, and whether the loop was aborted by an
uncaught `RuntimeError`. -/
def processChunks (extract : α → ChunkOutcome β) : List α → List β × Nat × Bool
  | [] => ([], 0, false)
  | c :: cs =>
    match extract c with
    | .exhausted => ([], 1, true)
    | .ok r =>
      let rest := processChunks extract cs
      (r :: rest.1, rest.2.1 + 1, rest.2.2)

/-- Outcome of the SMTP session inside `send_docx_via_email` (lines 161-168
of ExAuto.py): either the message is sent, or the transport/auth raises
(`smtplib` exception). -/
inductive DeliveryOutcome : Type
  | ok
  | deliveryError
deriving DecidableEq, Repr

/-- Observable behaviour of `send_docx_via_email`: whether an exception
propagates out of the function, and whether the `"Failed to send email"`
message was printed. -/
structure SendResult : Type where
  raised : Bool
  failureReported : Bool
deriving DecidableEq, Repr

/-- `send_docx_via_email` (lines 121-168 of ExAuto.py), projected onto its
error behaviour: the whole SMTP session sits in `try: ... except Exception
as e: print(f"Failed to send email: \x7be\x7d")`, so a delivery failure is
reported on stdout and the function returns normally either way. -/
def send_docx_via_email : DeliveryOutcome → SendResult
  | .ok => ⟨false, false⟩
  | .deliveryError => ⟨false, true⟩

/-- Observable trace of one `main` run (lines 170-194 of ExAuto.py) from
the chunk list onward: the `all_structured_outputs` accumulator, how many
chunks reached `extract_use_cases`, whether `send_docx_via_email` was
invoked, and the process exit code (an uncaught exception exits Python
non-zero; normal completion exits 0). -/
structure RunTrace (β : Type) : Type where
  outputs : List β
  extractCalls : Nat
  deliveryAttempted : Bool
  exitCode : Nat
deriving DecidableEq, Repr

/-- `main` from the chunk loop onward (lines 177-194 of ExAuto.py):
`extract c` is the outcome of `extract_use_cases` on chunk `c` and
`delivery` the outcome of the SMTP session.  If a chunk exhausts its
retries the `RuntimeError` propagates (main has no handler): no email is
attempted and the process exits non-zero.  Otherwise
`send_docx_via_email` is called; it never raises (see
`send_docx_via_email`), so `main` then prints "Done!" and exits 0. -/
def mainRun (extract : α → ChunkOutcome β) (chunks : List α)
    (delivery : DeliveryOutcome) : RunTrace β :=
  let r := processChunks extract chunks
  if r.2.2 then
    ⟨r.1, r.2.1, false, 1⟩
  else
    ⟨r.1, r.2.1, true, if (send_docx_via_email delivery).raised then 1 else 0⟩

/-- The loop returns `none` (raises the exhaustion error) exactly when every
remaining attempt fails. -/
theorem extractLoop_result_none (oracle : Nat → AttemptResult α) :
    ∀ remaining attempt : Nat,
      (extractLoop oracle attempt remaining).result = none ↔
        ∀ k, k < remaining → oracle (attempt + k) = .failure := by
  intro remaining
  induction remaining with
  | zero => intro a; simp [extractLoop]
  | succ rem ih =>
    intro a
    cases h : oracle a with
    | success r =>
      simp only [extractLoop, h]
      constructor
      · intro hnone; cases hnone
      · intro hall
        have h0 := hall 0 (Nat.succ_pos rem)
        rw [Nat.add_zero, h] at h0
        cases h0
    | failure =>
      simp only [extractLoop, h, ih (a + 1)]
      constructor
      · intro hrest k hk
        cases k with
        | zero => rw [Nat.add_zero]; exact h
        | succ k =>
          have := hrest k (by omega)
          rwa [show a + 1 + k = a + (k + 1) by omega] at this
      · intro hall k hk
        have := hall (k + 1) (by omega)
        rwa [show a + (k + 1) = a + 1 + k by omega] at this

/-- If the first `k` attempts fail and attempt `k` succeeds (within the
bound), the loop makes exactly `k + 1` calls, waits `2^attempt` after each
of the `k` failures, and returns the successful response. -/
theorem extractLoop_first_success (oracle : Nat → AttemptResult α) (r : α) :
    ∀ k remaining attempt : Nat, k < remaining →
      (∀ j, j < k → oracle (attempt + j) = .failure) →
      oracle (attempt + k) = .success r →
      extractLoop oracle attempt remaining =
        ⟨k + 1, (List.range' attempt k).map (2 ^ ·), some r⟩ := by
  intro k
  induction k with
  | zero =>
    intro remaining a hlt _ hsucc
    match remaining, hlt with
    | rem + 1, _ =>
      rw [Nat.add_zero] at hsucc
      simp [extractLoop, hsucc]
  | succ k ih =>
    intro remaining a hlt hfail hsucc
    match remaining, hlt with
    | rem + 1, hlt =>
      have h0 : oracle a = .failure := by
        have := hfail 0 (Nat.succ_pos k)
        rwa [Nat.add_zero] at this
      have hfail' : ∀ j, j < k → oracle (a + 1 + j) = .failure := by
        intro j hj
        have := hfail (j + 1) (by omega)
        rwa [show a + (j + 1) = a + 1 + j by omega] at this
      have hsucc' : oracle (a + 1 + k) = .success r := by
        rwa [show a + 1 + k = a + (k + 1) by omega]
      have hrest := ih rem (a + 1) (by omega) hfail' hsucc'
      simp [extractLoop, h0, hrest, List.range'_succ]

/-- When every remaining attempt fails, the loop makes exactly `remaining`
calls, performs a wait after each failure (including the last), and returns
`none`. -/
theorem extractLoop_all_fail (oracle : Nat → AttemptResult α) :
    ∀ remaining attempt : Nat,
      (∀ k, k < remaining → oracle (attempt + k) = .failure) →
      extractLoop oracle attempt remaining =
        ⟨remaining, (List.range' attempt remaining).map (2 ^ ·), none⟩ := by
  intro remaining
  induction remaining with
  | zero => intro a _; simp [extractLoop]
  | succ rem ih =>
    intro a hall
    have h0 : oracle a = .failure := by
      have := hall 0 (Nat.succ_pos rem)
      rwa [Nat.add_zero] at this
    have hall' : ∀ k, k < rem → oracle (a + 1 + k) = .failure := by
      intro k hk
      have := hall (k + 1) (by omega)
      rwa [show a + (k + 1) = a + 1 + k by omega] at this
    simp [extractLoop, h0, ih (a + 1) hall', List.range'_succ]

/-- The loop never makes more calls than it has remaining attempts. -/
theorem extractLoop_calls_le (oracle : Nat → AttemptResult α) :
    ∀ remaining attempt : Nat,
      (extractLoop oracle attempt remaining).calls ≤ remaining := by
  intro remaining
  induction remaining with
  | zero => intro a; simp [extractLoop]
  | succ rem ih =>
    intro a
    cases h : oracle a with
    | success r => simp [extractLoop, h]
    | failure =>
      simp only [extractLoop, h]
      have := ih (a + 1)
      omega

/-- The waits of any loop run are the consecutive powers of two starting at
`2^attempt`. -/
theorem extractLoop_waits (oracle : Nat → AttemptResult α) :
    ∀ remaining attempt : Nat,
      (extractLoop oracle attempt remaining).waits =
        (List.range' attempt
            (extractLoop oracle attempt remaining).waits.length).map (2 ^ ·) := by
  intro remaining
  induction remaining with
  | zero => intro a; simp [extractLoop]
  | succ rem ih =>
    intro a
    cases h : oracle a with
    | success r => simp [extractLoop, h]
    | failure =>
      simp only [extractLoop, h, List.length_cons]
      rw [List.range'_succ, List.map_cons]
      exact congrArg _ (ih (a + 1))

/-- Sum of the first `n` powers of two. -/
theorem sum_pow_two_range (n : Nat) :
    ((List.range n).map (2 ^ ·)).sum = 2 ^ n - 1 := by
  induction n with
  | zero => simp
  | succ m ih =>
    rw [List.range_succ, List.map_append, List.sum_append, ih]
    have h1 : 1 ≤ 2 ^ m := Nat.one_le_two_pow
    simp [Nat.pow_succ]
    omega

/-- A natural number is below an integer's `toNat` iff its cast is below the
integer. -/
theorem natCast_lt_iff_lt_toNat (k : Nat) (m : Int) :
    (k : Int) < m ↔ k < m.toNat := by
  omega

/-- C1: for every chunk (modelled by the per-attempt service oracle, since
the chunk text only feeds the prompt) and every `max_retries ≥ 1`,
`extract_use_cases` never makes more than `max_retries` service calls; if
the first `k` attempts fail and attempt `k` (within the bound) succeeds
with response `r`, it returns `r` having made exactly `k + 1` calls (no
further ones); and it raises the exhaustion `RuntimeError` (result `none`)
iff all `max_retries` consecutive attempts fail. -/
theorem C1_extraction_retry_contract (oracle : Nat → AttemptResult α)
    (max_retries : Int) (_hmr : 1 ≤ max_retries) :
    (extract_use_cases oracle max_retries).calls ≤ max_retries.toNat ∧
    (∀ (k : Nat) (r : α), (k : Int) < max_retries →
      (∀ j, j < k → oracle j = .failure) → oracle k = .success r →
      (extract_use_cases oracle max_retries).result = some r ∧
      (extract_use_cases oracle max_retries).calls = k + 1) ∧
    ((extract_use_cases oracle max_retries).result = none ↔
      ∀ k : Nat, (k : Int) < max_retries → oracle k = .failure) := by
  refine ⟨extractLoop_calls_le oracle max_retries.toNat 0, ?_, ?_⟩
  · intro k r hk hfail hsucc
    have hk' : k < max_retries.toNat := (natCast_lt_iff_lt_toNat k max_retries).mp hk
    have hfail' : ∀ j, j < k → oracle (0 + j) = .failure := by
      intro j hj; rw [Nat.zero_add]; exact hfail j hj
    have hsucc' : oracle (0 + k) = .success r := by rw [Nat.zero_add]; exact hsucc
    have h := extractLoop_first_success oracle r k max_retries.toNat 0 hk' hfail' hsucc'
    unfold extract_use_cases
    rw [h]
    exact ⟨rfl, rfl⟩
  · unfold extract_use_cases
    rw [extractLoop_result_none oracle max_retries.toNat 0]
    constructor
    · intro hall k hk
      have := hall k ((natCast_lt_iff_lt_toNat k max_retries).mp hk)
      rwa [Nat.zero_add] at this
    · intro hall k hk
      rw [Nat.zero_add]
      exact hall k ((natCast_lt_iff_lt_toNat k max_retries).mpr hk)

/-- Witness for C1 at a concrete input: `max_retries = 5` with an oracle
that succeeds on attempt 2. -/
theorem C1_extraction_retry_contract_witness :
    (1 : Int) ≤ 5 ∧
    ((extract_use_cases
        (fun k => if k < 2 then AttemptResult.failure else AttemptResult.success k)
        5).calls ≤ (5 : Int).toNat ∧
      (∀ (k : Nat) (r : Nat), (k : Int) < 5 →
        (∀ j, j < k →
          (fun k => if k < 2 then AttemptResult.failure else AttemptResult.success k) j =
            .failure) →
        (fun k => if k < 2 then AttemptResult.failure else AttemptResult.success k) k =
          .success r →
        (extract_use_cases
            (fun k => if k < 2 then AttemptResult.failure else AttemptResult.success k)
            5).result = some r ∧
        (extract_use_cases
            (fun k => if k < 2 then AttemptResult.failure else AttemptResult.success k)
            5).calls = k + 1) ∧
      ((extract_use_cases
          (fun k => if k < 2 then AttemptResult.failure else AttemptResult.success k)
          5).result = none ↔
        ∀ k : Nat, (k : Int) < 5 →
          (fun k => if k < 2 then AttemptResult.failure else AttemptResult.success k) k =
            .failure)) :=
  ⟨by decide,
    C1_extraction_retry_contract
      (fun k => if k < 2 then AttemptResult.failure else AttemptResult.success k)
      5 (by decide)⟩

/-- C4: the backoff waits of any `extract_use_cases` run are, in
chronological order, `2^0, 2^1, ...`: the wait performed before the `k`-th
retry attempt (0-indexed, i.e. after the `k`-th failure) is `2^k` seconds. -/
theorem C4_backoff_is_two_pow (oracle : Nat → AttemptResult α) (max_retries : Int) :
    (extract_use_cases oracle max_retries).waits =
      (List.range (extract_use_cases oracle max_retries).waits.length).map (2 ^ ·) ∧
    ∀ k, k < (extract_use_cases oracle max_retries).waits.length →
      (extract_use_cases oracle max_retries).waits.getD k 0 = 2 ^ k := by
  unfold extract_use_cases
  have h := extractLoop_waits oracle max_retries.toNat 0
  rw [← List.range_eq_range'] at h
  refine ⟨h, ?_⟩
  intro k hk
  rw [List.getD_eq_getElem?_getD, h, List.getElem?_map, List.getElem?_range hk]
  rfl

/-- C9: when every attempt fails and `max_retries ≥ 1`, the client raises
the exhaustion error after `max_retries` calls having performed a wait after
every failure — the final one included, a `2^(max_retries-1)`-second sleep
that precedes no further attempt — so the waits are
`2^0, ..., 2^(max_retries-1)` and their total is `2^max_retries - 1`
seconds. -/
theorem C9_exhaustion_waits_total (oracle : Nat → AttemptResult α)
    (max_retries : Int) (hmr : 1 ≤ max_retries)
    (hfail : ∀ k : Nat, (k : Int) < max_retries → oracle k = .failure) :
    (extract_use_cases oracle max_retries).result = none ∧
    (extract_use_cases oracle max_retries).calls = max_retries.toNat ∧
    (extract_use_cases oracle max_retries).waits =
      (List.range max_retries.toNat).map (2 ^ ·) ∧
    (extract_use_cases oracle max_retries).waits.length = max_retries.toNat ∧
    (extract_use_cases oracle max_retries).waits.getD (max_retries.toNat - 1) 0 =
      2 ^ (max_retries.toNat - 1) ∧
    (extract_use_cases oracle max_retries).waits.sum = 2 ^ max_retries.toNat - 1 := by
  have hfail' : ∀ k, k < max_retries.toNat → oracle (0 + k) = .failure := by
    intro k hk
    rw [Nat.zero_add]
    exact hfail k ((natCast_lt_iff_lt_toNat k max_retries).mpr hk)
  have h := extractLoop_all_fail oracle max_retries.toNat 0 hfail'
  rw [← List.range_eq_range'] at h
  unfold extract_use_cases
  rw [h]
  have hpos : 0 < max_retries.toNat := by omega
  refine ⟨rfl, rfl, rfl, by simp, ?_, sum_pow_two_range max_retries.toNat⟩
  have hlt : max_retries.toNat - 1 < ((List.range max_retries.toNat).map (2 ^ ·)).length := by
    simp; omega
  rw [List.getD_eq_getElem _ _ hlt]
  simp [Nat.sub_lt hpos Nat.one_pos]

/-- Witness for C9: every attempt fails with `max_retries = 5`; the waits
are `[1, 2, 4, 8, 16]`, summing to `31 = 2^5 - 1`. -/
theorem C9_exhaustion_waits_total_witness :
    ((1 : Int) ≤ 5 ∧ ∀ k : Nat, (k : Int) < 5 →
        (fun _ => AttemptResult.failure (α := Nat)) k = .failure) ∧
    ((extract_use_cases (fun _ => AttemptResult.failure (α := Nat)) 5).result = none ∧
      (extract_use_cases (fun _ => AttemptResult.failure (α := Nat)) 5).calls =
        (5 : Int).toNat ∧
      (extract_use_cases (fun _ => AttemptResult.failure (α := Nat)) 5).waits =
        (List.range (5 : Int).toNat).map (2 ^ ·) ∧
      (extract_use_cases (fun _ => AttemptResult.failure (α := Nat)) 5).waits.length =
        (5 : Int).toNat ∧
      (extract_use_cases (fun _ => AttemptResult.failure (α := Nat)) 5).waits.getD
          ((5 : Int).toNat - 1) 0 = 2 ^ ((5 : Int).toNat - 1) ∧
      (extract_use_cases (fun _ => AttemptResult.failure (α := Nat)) 5).waits.sum =
        2 ^ (5 : Int).toNat - 1) :=
  ⟨⟨by decide, fun _ _ => rfl⟩,
    C9_exhaustion_waits_total (fun _ => AttemptResult.failure) 5 (by decide)
      (fun _ _ => rfl)⟩

/-- C10: with `max_retries ≤ 0` the `while attempt < max_retries` loop body
never runs, so `extract_use_cases` raises the exhaustion error immediately:
no service call is made and no backoff wait is performed. -/
theorem C10_nonpositive_max_retries (oracle : Nat → AttemptResult α)
    (max_retries : Int) (h : max_retries ≤ 0) :
    extract_use_cases oracle max_retries = ⟨0, [], none⟩ := by
  unfold extract_use_cases
  rw [show max_retries.toNat = 0 by omega]
  simp [extractLoop]

/-- Witness for C10 at `max_retries = 0`. -/
theorem C10_nonpositive_max_retries_witness :
    (0 : Int) ≤ 0 ∧
    extract_use_cases (fun _ => AttemptResult.failure (α := Nat)) 0 = ⟨0, [], none⟩ :=
  ⟨by decide, C10_nonpositive_max_retries (fun _ => AttemptResult.failure) 0 (by decide)⟩

/-- Processing a list with an all-successful prefix prepends the prefix's
results (in order) and its length to whatever happens on the remainder. -/
theorem processChunks_ok_prefix (extract : α → ChunkOutcome β) (f : α → β) :
    ∀ pre rest : List α, (∀ x ∈ pre, extract x = .ok (f x)) →
      processChunks extract (pre ++ rest) =
        (pre.map f ++ (processChunks extract rest).1,
          pre.length + (processChunks extract rest).2.1,
          (processChunks extract rest).2.2) := by
  intro pre
  induction pre with
  | nil => intro rest _; simp
  | cons c cs ih =>
    intro rest h
    have hc : extract c = .ok (f c) := h c (List.mem_cons_self c cs)
    have hcs : ∀ x ∈ cs, extract x = .ok (f x) := by
      intro x hx; exact h x (List.mem_cons_of_mem c hx)
    simp only [List.cons_append, processChunks, hc, List.append_eq]
    rw [ih rest hcs]
    simp only [List.map_cons, List.cons_append, List.length_cons, Prod.mk.injEq]
    exact ⟨trivial, by omega, trivial⟩

/-- C5: when the extraction of chunk `i` (1-indexed; here `pre` are chunks
`1..i-1` and `c` is chunk `i`) exhausts its retries, `main` has appended the
structured outputs of exactly chunks `1..i-1`, has called the extraction on
exactly chunks `1..i` (none after `i`), never reaches
`send_docx_via_email`, and the uncaught `RuntimeError` exits the process
non-zero. -/
theorem C5_abort_on_exhaustion (extract : α → ChunkOutcome β) (f : α → β)
    (pre : List α) (c : α) (post : List α)
    (hpre : ∀ x ∈ pre, extract x = .ok (f x)) (hc : extract c = .exhausted)
    (delivery : DeliveryOutcome) :
    (mainRun extract (pre ++ c :: post) delivery).outputs = pre.map f ∧
    (mainRun extract (pre ++ c :: post) delivery).extractCalls = pre.length + 1 ∧
    (mainRun extract (pre ++ c :: post) delivery).deliveryAttempted = false ∧
    (mainRun extract (pre ++ c :: post) delivery).exitCode ≠ 0 := by
  have h1 : processChunks extract (c :: post) = ([], 1, true) := by
    simp [processChunks, hc]
  have h := processChunks_ok_prefix extract f pre (c :: post) hpre
  rw [h1] at h
  simp [mainRun, h]

/-- Witness for C5: three chunks, the second exhausts; one completed output,
two extraction calls, no delivery, non-zero exit. -/
theorem C5_abort_on_exhaustion_witness :
    ((∀ x ∈ [1],
        (fun c : Nat => if c = 2 then ChunkOutcome.exhausted else ChunkOutcome.ok (c + 10)) x =
          .ok (x + 10)) ∧
      (fun c : Nat => if c = 2 then ChunkOutcome.exhausted else ChunkOutcome.ok (c + 10)) 2 =
        .exhausted) ∧
    ((mainRun
        (fun c : Nat => if c = 2 then ChunkOutcome.exhausted else ChunkOutcome.ok (c + 10))
        ([1] ++ 2 :: [3]) DeliveryOutcome.ok).outputs = [1].map (· + 10) ∧
      (mainRun
        (fun c : Nat => if c = 2 then ChunkOutcome.exhausted else ChunkOutcome.ok (c + 10))
        ([1] ++ 2 :: [3]) DeliveryOutcome.ok).extractCalls = [1].length + 1 ∧
      (mainRun
        (fun c : Nat => if c = 2 then ChunkOutcome.exhausted else ChunkOutcome.ok (c + 10))
        ([1] ++ 2 :: [3]) DeliveryOutcome.ok).deliveryAttempted = false ∧
      (mainRun
        (fun c : Nat => if c = 2 then ChunkOutcome.exhausted else ChunkOutcome.ok (c + 10))
        ([1] ++ 2 :: [3]) DeliveryOutcome.ok).exitCode ≠ 0) :=
  ⟨⟨by decide, by decide⟩,
    C5_abort_on_exhaustion
      (fun c : Nat => if c = 2 then ChunkOutcome.exhausted else ChunkOutcome.ok (c + 10))
      (· + 10) [1] 2 [3] (by decide) (by decide) DeliveryOutcome.ok⟩

/-- C7: when no extraction raises, `main` produces exactly one structured
output per chunk, the `i`-th output being the extraction result of the
`i`-th chunk. -/
theorem C7_one_output_per_chunk (extract : α → ChunkOutcome β) (f : α → β)
    (chunks : List α) (h : ∀ x ∈ chunks, extract x = .ok (f x))
    (delivery : DeliveryOutcome) :
    (mainRun extract chunks delivery).outputs = chunks.map f ∧
    (mainRun extract chunks delivery).outputs.length = chunks.length ∧
    (mainRun extract chunks delivery).extractCalls = chunks.length := by
  have hp := processChunks_ok_prefix extract f chunks [] h
  rw [List.append_nil] at hp
  have hnil : processChunks extract ([] : List α) = ([], 0, false) := rfl
  rw [hnil] at hp
  simp only [List.append_nil] at hp
  simp [mainRun, hp]

/-- Witness for C7: three chunks, all successful, outputs in chunk order. -/
theorem C7_one_output_per_chunk_witness :
    (∀ x ∈ [1, 2, 3], (fun c : Nat => ChunkOutcome.ok (c * 2)) x = .ok (x * 2)) ∧
    ((mainRun (fun c : Nat => ChunkOutcome.ok (c * 2)) [1, 2, 3]
        DeliveryOutcome.ok).outputs = [1, 2, 3].map (· * 2) ∧
      (mainRun (fun c : Nat => ChunkOutcome.ok (c * 2)) [1, 2, 3]
        DeliveryOutcome.ok).outputs.length = [1, 2, 3].length ∧
      (mainRun (fun c : Nat => ChunkOutcome.ok (c * 2)) [1, 2, 3]
        DeliveryOutcome.ok).extractCalls = [1, 2, 3].length) :=
  ⟨by decide,
    C7_one_output_per_chunk (fun c : Nat => ChunkOutcome.ok (c * 2)) (· * 2)
      [1, 2, 3] (by decide) DeliveryOutcome.ok⟩

/-- Counterexample to C6 as stated: with one successfully extracted chunk
and a failing SMTP delivery, the exception does not propagate out of
`send_docx_via_email` (its `except Exception` swallows it) and the process
exits 0, contradicting "the failure propagates out of the send operation
and the process exits non-zero". -/
theorem C6_claim_counterexample :
    (send_docx_via_email DeliveryOutcome.deliveryError).raised = false ∧
    (mainRun (fun _ : Nat => ChunkOutcome.ok 0) [1]
        DeliveryOutcome.deliveryError).exitCode = 0 ∧
    (mainRun (fun _ : Nat => ChunkOutcome.ok 0) [1]
        DeliveryOutcome.deliveryError).deliveryAttempted = true := by
  decide

/-- C6 as amended: if mail delivery fails after all extractions succeeded,
`send_docx_via_email` catches the exception and reports it on stdout, no
exception propagates, and the run completes with exit code 0. -/
theorem C6_delivery_failure_reported_not_fatal (extract : α → ChunkOutcome β)
    (f : α → β) (chunks : List α) (h : ∀ x ∈ chunks, extract x = .ok (f x)) :
    (send_docx_via_email DeliveryOutcome.deliveryError).failureReported = true ∧
    (send_docx_via_email DeliveryOutcome.deliveryError).raised = false ∧
    (mainRun extract chunks DeliveryOutcome.deliveryError).deliveryAttempted = true ∧
    (mainRun extract chunks DeliveryOutcome.deliveryError).exitCode = 0 := by
  have hp := processChunks_ok_prefix extract f chunks [] h
  rw [List.append_nil] at hp
  have hnil : processChunks extract ([] : List α) = ([], 0, false) := rfl
  rw [hnil] at hp
  simp only [List.append_nil] at hp
  refine ⟨rfl, rfl, ?_, ?_⟩ <;> simp [mainRun, hp, send_docx_via_email]

/-- Witness for the amended C6: one chunk extracted successfully, delivery
fails, failure reported, exit 0. -/
theorem C6_delivery_failure_reported_not_fatal_witness :
    (∀ x ∈ [5], (fun _ : Nat => ChunkOutcome.ok 0) x = .ok 0) ∧
    ((send_docx_via_email DeliveryOutcome.deliveryError).failureReported = true ∧
      (send_docx_via_email DeliveryOutcome.deliveryError).raised = false ∧
      (mainRun (fun _ : Nat => ChunkOutcome.ok 0) [5]
          DeliveryOutcome.deliveryError).deliveryAttempted = true ∧
      (mainRun (fun _ : Nat => ChunkOutcome.ok 0) [5]
          DeliveryOutcome.deliveryError).exitCode = 0) :=
  ⟨by decide,
    C6_delivery_failure_reported_not_fatal (fun _ : Nat => ChunkOutcome.ok 0)
      (fun _ => 0) [5] (by decide)⟩

/-- Every word produced by the splitting pass is nonempty and contains no
whitespace, provided the accumulator does not contain whitespace. -/
theorem pySplitAux_words :
    ∀ (s cur : List Char), (∀ c ∈ cur, isPySpace c = false) →
      ∀ w ∈ pySplitAux s cur, w ≠ [] ∧ ∀ c ∈ w, isPySpace c = false := by
  intro s
  induction s with
  | nil =>
    intro cur hcur w hw
    simp only [pySplitAux] at hw
    by_cases h : cur = []
    · simp [h] at hw
    · simp [h] at hw
      exact hw ▸ ⟨h, hcur⟩
  | cons c cs ih =>
    intro cur hcur w hw
    simp only [pySplitAux] at hw
    by_cases hsp : isPySpace c
    · simp only [hsp, if_true] at hw
      by_cases h : cur = []
      · simp only [h, if_pos rfl] at hw
        exact ih [] (by simp) w hw
      · simp only [if_neg h, List.mem_cons] at hw
        rcases hw with hw | hw
        · exact hw ▸ ⟨h, hcur⟩
        · exact ih [] (by simp) w hw
    · simp only [hsp] at hw
      simp only [Bool.false_eq_true, if_false] at hw
      refine ih (cur ++ [c]) ?_ w hw
      intro d hd
      rcases List.mem_append.mp hd with hd | hd
      · exact hcur d hd
      · simp only [List.mem_singleton] at hd
        subst hd
        simpa using hsp

/-- Consuming a whitespace-free block appends it to the accumulator. -/
theorem pySplitAux_append_block :
    ∀ (w rest cur : List Char), (∀ c ∈ w, isPySpace c = false) →
      pySplitAux (w ++ rest) cur = pySplitAux rest (cur ++ w) := by
  intro w
  induction w with
  | nil => intro rest cur _; simp
  | cons c cs ih =>
    intro rest cur h
    have hc : isPySpace c = false := h c (List.mem_cons_self c cs)
    simp only [List.cons_append, pySplitAux, hc, Bool.false_eq_true, if_false,
      List.append_eq]
    rw [ih rest (cur ++ [c]) (fun d hd => h d (List.mem_cons_of_mem c hd))]
    simp

/-- Consuming a space closes the current word. -/
theorem pySplitAux_space_cons (rest cur : List Char) :
    pySplitAux (' ' :: rest) cur =
      if cur = [] then pySplitAux rest [] else cur :: pySplitAux rest [] := by
  simp [pySplitAux, isPySpace]

/-- Re-splitting a single-space join of nonempty whitespace-free words
recovers exactly those words. -/
theorem pySplit_joinWords :
    ∀ ws : List (List Char),
      (∀ w ∈ ws, w ≠ [] ∧ ∀ c ∈ w, isPySpace c = false) →
      pySplit (joinWords ws) = ws := by
  intro ws
  induction ws with
  | nil => intro _; rfl
  | cons w tail ih =>
    intro h
    have hw := h w (List.mem_cons_self w tail)
    cases tail with
    | nil =>
      show pySplitAux (joinWords [w]) [] = [w]
      have : joinWords [w] = w := rfl
      rw [this, show w = w ++ [] from (List.append_nil w).symm,
        pySplitAux_append_block w [] [] hw.2]
      simp [pySplitAux, hw.1]
    | cons v tail' =>
      have hjoin : joinWords (w :: v :: tail') = w ++ ' ' :: joinWords (v :: tail') := rfl
      show pySplitAux (joinWords (w :: v :: tail')) [] = w :: v :: tail'
      rw [hjoin, pySplitAux_append_block w _ [] hw.2]
      simp only [List.nil_append]
      rw [pySplitAux_space_cons, if_neg hw.1]
      exact congrArg _ (ih fun x hx => h x (List.mem_cons_of_mem w hx))

/-- Concatenating the groups gives back the original list. -/
theorem chunkGroupsGo_flatten (n : Nat) (hn : n ≠ 0) :
    ∀ (fuel : Nat) (ws : List α), ws.length ≤ fuel →
      (chunkGroupsGo n fuel ws).flatten = ws := by
  intro fuel
  induction fuel with
  | zero =>
    intro ws hws
    match ws, hws with
    | [], _ => rfl
  | succ fuel ih =>
    intro ws hws
    match ws with
    | [] => rfl
    | w :: rest =>
      simp only [chunkGroupsGo, hn, if_false, List.flatten_cons]
      rw [ih ((w :: rest).drop n) (by simp only [List.length_drop, List.length_cons] at hws ⊢; omega)]
      exact List.take_append_drop n (w :: rest)

/-- The number of groups is the ceiling of `length / n`. -/
theorem chunkGroupsGo_length (n : Nat) (hn : n ≠ 0) :
    ∀ (fuel : Nat) (ws : List α), ws.length ≤ fuel →
      (chunkGroupsGo n fuel ws).length = (ws.length + n - 1) / n := by
  intro fuel
  induction fuel with
  | zero =>
    intro ws hws
    match ws, hws with
    | [], _ =>
      simp [chunkGroupsGo, Nat.div_eq_of_lt (show n - 1 < n by omega)]
  | succ fuel ih =>
    intro ws hws
    match ws with
    | [] => simp [chunkGroupsGo, Nat.div_eq_of_lt (show n - 1 < n by omega)]
    | w :: rest =>
      simp only [chunkGroupsGo, hn, if_false, List.length_cons]
      rw [ih ((w :: rest).drop n) (by simp only [List.length_drop, List.length_cons] at hws ⊢; omega)]
      simp only [List.length_drop, List.length_cons]
      rcases le_or_lt (rest.length + 1) n with hle | hlt
      · rw [show rest.length + 1 - n = 0 by omega]
        rw [Nat.div_eq_of_lt (show 0 + n - 1 < n by omega)]
        rw [Nat.div_eq_of_lt_le (k := 1) (by omega) (by omega)]
      · rw [show rest.length + 1 - n + n - 1 = (rest.length + 1 - n - 1) + n by omega,
          Nat.add_div_right _ (by omega),
          show rest.length + 1 + n - 1 = (rest.length + 1 - 1) + n by omega,
          Nat.add_div_right _ (by omega)]
        have hstep : rest.length + 1 - n - 1 + n = rest.length + 1 - 1 := by omega
        rw [← hstep, Nat.add_div_right _ (by omega)]

/-- Every group except possibly the last has exactly `n` elements. -/
theorem chunkGroupsGo_dropLast_length (n : Nat) (hn : n ≠ 0) :
    ∀ (fuel : Nat) (ws : List α), ws.length ≤ fuel →
      ∀ g ∈ (chunkGroupsGo n fuel ws).dropLast, g.length = n := by
  intro fuel
  induction fuel with
  | zero =>
    intro ws hws
    match ws, hws with
    | [], _ => intro g hg; simp [chunkGroupsGo] at hg
  | succ fuel ih =>
    intro ws hws
    match ws with
    | [] => intro g hg; simp [chunkGroupsGo] at hg
    | w :: rest =>
      intro g hg
      simp only [chunkGroupsGo, hn, if_false] at hg
      cases hrec : chunkGroupsGo n fuel ((w :: rest).drop n) with
      | nil => rw [hrec] at hg; simp at hg
      | cons g0 gs =>
        rw [hrec, List.dropLast_cons_of_ne_nil (by simp), List.mem_cons] at hg
        rcases hg with hg | hg
        · subst hg
          have hlen : n ≤ (w :: rest).length := by
            by_contra hcon
            push_neg at hcon
            have hdrop : (w :: rest).drop n = [] := by
              apply List.drop_eq_nil_of_le
              omega
            rw [hdrop] at hrec
            cases fuel <;> simp [chunkGroupsGo] at hrec
          simp only [List.length_take, List.length_cons]
          simp only [List.length_cons] at hlen
          omega
        · rw [← hrec] at hg
          exact ih ((w :: rest).drop n) (by simp only [List.length_drop, List.length_cons] at hws ⊢; omega) g hg

/-- C3: when the word count of the text is at most
`model_max_tokens - buffer_tokens`, `smart_split_text` returns exactly one
chunk, equal to the input text itself (so the empty string yields the
one-element list containing the empty string, not an empty list — see the
witness). -/
theorem C3_single_chunk (text : List Char) (model_max_tokens buffer_tokens : Int)
    (h : ((pySplit text).length : Int) ≤ model_max_tokens - buffer_tokens) :
    smart_split_text text model_max_tokens buffer_tokens = [text] := by
  simp only [smart_split_text, if_pos h]

/-- Witness for C3 at the empty string with the default parameters `3000`
and `500`: one chunk holding the empty string. -/
theorem C3_single_chunk_witness :
    (((pySplit "".toList).length : Int) ≤ 3000 - 500) ∧
    smart_split_text "".toList 3000 500 = ["".toList] :=
  ⟨by decide, C3_single_chunk "".toList 3000 500 (by decide)⟩

/-- C2: when the word count exceeds `n = model_max_tokens - buffer_tokens`
(positive), `smart_split_text` returns exactly `⌈wordCount / n⌉` chunks
(here `(wordCount + n - 1) / n` in natural division), every chunk except
possibly the last re-splits into exactly `n` words, and re-splitting each
chunk on whitespace and concatenating across chunks in order reproduces the
original word sequence exactly. -/
theorem C2_chunking_partition (text : List Char) (model_max_tokens buffer_tokens : Int)
    (hpos : 0 < model_max_tokens - buffer_tokens)
    (hgt : model_max_tokens - buffer_tokens < ((pySplit text).length : Int)) :
    (smart_split_text text model_max_tokens buffer_tokens).length =
      ((pySplit text).length + (model_max_tokens - buffer_tokens).toNat - 1) /
        (model_max_tokens - buffer_tokens).toNat ∧
    (∀ g ∈ (smart_split_text text model_max_tokens buffer_tokens).dropLast,
      (pySplit g).length = (model_max_tokens - buffer_tokens).toNat) ∧
    ((smart_split_text text model_max_tokens buffer_tokens).map pySplit).flatten =
      pySplit text := by
  have hcond : ¬ (((pySplit text).length : Int) ≤ model_max_tokens - buffer_tokens) := by
    omega
  have hn : (model_max_tokens - buffer_tokens).toNat ≠ 0 := by omega
  have hsplit : smart_split_text text model_max_tokens buffer_tokens =
      (chunkGroups (model_max_tokens - buffer_tokens).toNat (pySplit text)).map
        joinWords := by
    simp only [smart_split_text, if_neg hcond]
  have hwords : ∀ w ∈ pySplit text, w ≠ [] ∧ ∀ c ∈ w, isPySpace c = false :=
    pySplitAux_words text [] (by simp)
  have hflat : (chunkGroups (model_max_tokens - buffer_tokens).toNat
      (pySplit text)).flatten = pySplit text :=
    chunkGroupsGo_flatten _ hn _ _ le_rfl
  have hgood : ∀ grp ∈ chunkGroups (model_max_tokens - buffer_tokens).toNat
      (pySplit text), ∀ w ∈ grp, w ≠ [] ∧ ∀ c ∈ w, isPySpace c = false := by
    intro grp hgrp w hw
    exact hwords w (hflat ▸ List.mem_flatten_of_mem hgrp hw)
  have hrejoin : ∀ grp ∈ chunkGroups (model_max_tokens - buffer_tokens).toNat
      (pySplit text), pySplit (joinWords grp) = grp := by
    intro grp hgrp
    exact pySplit_joinWords grp (hgood grp hgrp)
  refine ⟨?_, ?_, ?_⟩
  · rw [hsplit, List.length_map]
    exact chunkGroupsGo_length _ hn _ _ le_rfl
  · intro g hg
    rw [hsplit, ← List.map_dropLast] at hg
    rcases List.mem_map.mp hg with ⟨grp, hgrp, rfl⟩
    have hgrp' : grp ∈ chunkGroups (model_max_tokens - buffer_tokens).toNat
        (pySplit text) := (List.dropLast_sublist _).subset hgrp
    rw [hrejoin grp hgrp']
    exact chunkGroupsGo_dropLast_length _ hn _ _ le_rfl grp hgrp
  · rw [hsplit, List.map_map]
    rw [List.map_congr_left (f := pySplit ∘ joinWords) (g := id)
        (fun grp hgrp => hrejoin grp hgrp), List.map_id]
    exact hflat

/-- Witness for C2: the 3-word text "a b c" with a budget of 2 words per
chunk splits into 2 chunks, the first of exactly 2 words, re-splitting and
concatenating gives the original words back. -/
theorem C2_chunking_partition_witness :
    ((0 : Int) < 2 - 0 ∧ (2 : Int) - 0 < ((pySplit "a b c".toList).length : Int)) ∧
    ((smart_split_text "a b c".toList 2 0).length =
        ((pySplit "a b c".toList).length + ((2 : Int) - 0).toNat - 1) /
          ((2 : Int) - 0).toNat ∧
      (∀ g ∈ (smart_split_text "a b c".toList 2 0).dropLast,
        (pySplit g).length = ((2 : Int) - 0).toNat) ∧
      ((smart_split_text "a b c".toList 2 0).map pySplit).flatten =
        pySplit "a b c".toList) :=
  ⟨⟨by decide, by decide⟩,
    C2_chunking_partition "a b c".toList 2 0 (by decide) (by decide)⟩

/-- C8: recipient validation keeps exactly the non-blank stripped lines that
the email regex accepts, in their original order (the result is an
order-preserving sublist of the stripped lines); every other entry is
dropped (the source only prints a warning for them, it never raises); and
on the candidate list `["a@b.com", "not-an-email", "c@d.org"]` it returns
`["a@b.com", "c@d.org"]`. -/
theorem C8_recipient_validation (rawLines : List (List Char)) :
    read_recipients_from_file rawLines =
      (rawLines.map pyStrip).filter (fun l => is_valid_email l && !l.isEmpty) ∧
    (read_recipients_from_file rawLines).Sublist (rawLines.map pyStrip) ∧
    read_recipients_from_file
        ["a@b.com".toList, "not-an-email".toList, "c@d.org".toList] =
      ["a@b.com".toList, "c@d.org".toList] := by
  refine ⟨?_, ?_, by decide⟩
  · simp only [read_recipients_from_file, List.filter_filter]
  · exact ((List.filter_sublist _).trans (List.filter_sublist _))

end ExAuto
